import Mathlib

/-!
Verification of the document ingestion and asynchronous processing core of
the `ai-knowledge-system` repository (Rust, `src-tauri`).

The Rust sources are embedded shallowly:

* Rust strings are modelled as `List Char` (Unicode scalar values).  Rust
  byte-indexed operations (`str::len`, slicing `&s[..n]`, `find`, `rfind`)
  are modelled via the UTF-8 byte size of each character; a byte slice at an
  index that is not a character boundary is a Rust panic, modelled as
  `Option.none`.
* External collaborators (the SHA-256 hasher, the `infer` MIME sniffer, the
  `lopdf` page reader, the filesystem, the database driver and the Tauri
  runtime) are oracles: their per-call outcomes are fields of explicit
  environment records, and the embedded functions are deterministic in them.
* SQL statements from `services/document.rs` are embedded as pure record /
  table transformations reflecting the statement text.

All definitions follow the source files `pdf_processor.rs`, `file_utils.rs`,
`lib.rs` and `services/document.rs`; definitions deliberately written from
the specification's words (for refinement comparisons) say so in their doc
comments.
-/

namespace AIKS

/-- Rust strings are sequences of Unicode scalar values. -/
abbrev RStr := List Char

/-- UTF-8 encoded byte size of one character (1 to 4 bytes). -/
def utf8SizeC (c : Char) : Nat :=
  if c.toNat < 0x80 then 1
  else if c.toNat < 0x800 then 2
  else if c.toNat < 0x10000 then 3
  else 4

/-- Rust `str::len`: the UTF-8 byte length of a string. -/
def byteLen (l : RStr) : Nat := (l.map utf8SizeC).sum

/-- The Unicode `White_Space` set tested by Rust `char::is_whitespace`. -/
def isRustWhitespace (c : Char) : Bool :=
  c = ' ' || c = '\t' || c = '\n' || c = '\x0b' || c = '\x0c' || c = '\r' ||
  c = '\u0085' || c = '\u00a0' || c = '\u1680' ||
  ('\u2000' ≤ c && c ≤ '\u200a') ||
  c = '\u2028' || c = '\u2029' || c = '\u202f' || c = '\u205f' || c = '\u3000'

/-- Rust `str::trim`: drop leading and trailing whitespace. -/
def rustTrim (l : RStr) : RStr :=
  ((l.dropWhile isRustWhitespace).reverse.dropWhile isRustWhitespace).reverse

/-- Rust byte slice `&s[..n]`: `some` prefix when `n` is a character
boundary of `s` (hence `n ≤ s.len()`), `none` (a Rust panic) otherwise. -/
def byteSlicePrefix : RStr → Nat → Option RStr
  | _, 0 => some []
  | [], _ + 1 => none
  | c :: rest, n + 1 =>
    if utf8SizeC c ≤ n + 1 then (byteSlicePrefix rest (n + 1 - utf8SizeC c)).map (c :: ·)
    else none

/-- Rust `str::rfind(' ')`: byte offset of the last space character. -/
def rfindSpace : RStr → Option Nat
  | [] => none
  | c :: rest =>
    match rfindSpace rest with
    | some i => some (utf8SizeC c + i)
    | none => if c = ' ' then some 0 else none

/-- Rust `str::find("\n\n")`: byte offset of the first occurrence of two
consecutive newlines.  (In UTF-8 the byte `0x0A` occurs only as the
character `'\n'`, so the byte-level search coincides with this
character-level one.) -/
def findParaBreak : RStr → Option Nat
  | [] => none
  | c :: rest =>
    if c = '\n' ∧ rest.head? = some '\n' then some 0
    else (findParaBreak rest).map (utf8SizeC c + ·)

/-- The ellipsis marker appended by `format!("\x7b\x7d...", ..)`. -/
def ellipsis : RStr := "...".data

/-- `pdf_processor.rs` lines 22-35, `generate_preview`: first `max_chars`
bytes of the trimmed text, broken back at a word boundary when one exists.
`none` models the Rust panic of the byte slice `&trimmed[..max_chars]` when
`max_chars` is not a character boundary. -/
def generate_preview (text : RStr) (max_chars : Nat) : Option RStr :=
  let trimmed := rustTrim text
  if byteLen trimmed ≤ max_chars then some trimmed
  else
    match byteSlicePrefix trimmed max_chars with
    | none => none
    | some preview =>
      match rfindSpace preview with
      | some last_space =>
        match byteSlicePrefix preview last_space with
        | none => none
        | some kept => some (kept ++ ellipsis)
      | none => some (preview ++ ellipsis)

/-- `pdf_processor.rs` lines 38-51, `generate_basic_summary`: first
paragraph when it fits, else `generate_preview` of the trimmed text. -/
def generate_basic_summary (text : RStr) (max_chars : Nat) : Option RStr :=
  let trimmed := rustTrim text
  match findParaBreak trimmed with
  | some first_para_end =>
    match byteSlicePrefix trimmed first_para_end with
    | none => none
    | some first_para =>
      if byteLen first_para ≤ max_chars then some first_para
      else generate_preview trimmed max_chars
  | none => generate_preview trimmed max_chars

/-! ## Specification-side summary algorithm

`specSummary` below is written from the specification's words, for
comparison with `generate_basic_summary` above: "trim surrounding
whitespace from the extracted text. If the text contains a blank-line
paragraph break, take everything before the first such break as a
candidate; if that candidate's length is within the bound, use it verbatim.
Otherwise (no usable paragraph, or it exceeds the bound), truncate the
trimmed text to the bound, then trim back to the last word boundary before
the cutoff (if one exists) and append an ellipsis marker; if no word
boundary exists in the truncated slice, append the ellipsis marker directly
after the raw cutoff."  Truncation "to the bound" is read as the longest
prefix whose byte length is within the bound, and a text already within the
bound is kept verbatim (the specification's own scenario: a 400-character
text under a 500-character bound yields the full text). -/

/-- Longest prefix of `l` whose total UTF-8 byte length is at most `n`. -/
def takeFitBytes (l : RStr) (n : Nat) : RStr :=
  match l with
  | [] => []
  | c :: rest =>
    if utf8SizeC c ≤ n then c :: takeFitBytes rest (n - utf8SizeC c) else []

/-- Spec-side fallback: keep a within-bound text verbatim, otherwise
truncate to the bound, trim back to the last word boundary when one exists,
and append the ellipsis marker. -/
def specFallbackSummary (trimmed : RStr) (bound : Nat) : RStr :=
  if byteLen trimmed ≤ bound then trimmed
  else
    let cut := takeFitBytes trimmed bound
    match rfindSpace cut with
    | some i => takeFitBytes cut i ++ ellipsis
    | none => cut ++ ellipsis

/-- Spec-side summary derivation (see the section comment above). -/
def specSummary (text : RStr) (bound : Nat) : RStr :=
  let trimmed := rustTrim text
  match findParaBreak trimmed with
  | some i =>
    let candidate := takeFitBytes trimmed i
    if byteLen candidate ≤ bound then candidate
    else specFallbackSummary trimmed bound
  | none => specFallbackSummary trimmed bound

/-! ## PDF text extraction (`pdf_processor.rs` lines 5-19)

`lopdf` is an external library; a successfully loaded document is modelled
by the data the extraction loop consumes: `get_pages()` iterates a
`BTreeMap` keyed by page number, so `pages` lists the page numbers in
ascending (page) order, and `extract_text(&[p])` is the per-page oracle
`extractPage`. -/

instance : DecidableEq (Except RStr RStr) := fun a b =>
  match a, b with
  | .ok x, .ok y => decidable_of_iff (x = y) (by simp)
  | .error x, .error y => decidable_of_iff (x = y) (by simp)
  | .ok _, .error _ => isFalse (by simp)
  | .error _, .ok _ => isFalse (by simp)

/-- A loaded PDF document, as seen by `extract_text_from_pdf`. -/
structure PdfDoc where
  pages : List Nat
  extractPage : Nat → Except RStr RStr

/-- The page loop of `extract_text_from_pdf`: each page whose extraction
succeeds contributes its text followed by a pushed newline; a failed page
contributes nothing. -/
def extractPagesLoop (doc : PdfDoc) : List Nat → RStr → RStr
  | [], acc => acc
  | p :: rest, acc =>
    match doc.extractPage p with
    | .ok page_text => extractPagesLoop doc rest (acc ++ page_text ++ ['\n'])
    | .error _ => extractPagesLoop doc rest acc

/-- `pdf_processor.rs` lines 5-19, `extract_text_from_pdf`, applied to the
outcome of `Document::load`. -/
def extract_text_from_pdf (load : Except RStr PdfDoc) : Except RStr RStr :=
  match load with
  | .error e => .error ("Failed to load PDF: ".data ++ e)
  | .ok doc => .ok (extractPagesLoop doc doc.pages [])

/-! ## Document records and store operations
(`models.rs`, `services/document.rs`) -/

/-- `models.rs`: the four lifecycle states of `document_status`. -/
inductive DocumentStatus where
  | Uploading
  | Processing
  | Completed
  | Failed
deriving DecidableEq

/-- `models.rs`: the `Document` record.  `Uuid`s are modelled as strings,
timestamps as naturals. -/
structure Document where
  id : Nat
  user_id : RStr
  workspace_id : Option Nat
  title : RStr
  content : Option RStr
  summary : Option RStr
  file_path : Option RStr
  file_name : Option RStr
  file_size_bytes : Option Int
  file_type : Option RStr
  mime_type : Option RStr
  status : DocumentStatus
  processing_error : Option RStr
  created_at : Nat
  updated_at : Nat
  deleted_at : Option Nat
deriving DecidableEq

/-- `models.rs`: `CreateDocumentDto`. -/
structure CreateDocumentDto where
  user_id : RStr
  title : RStr
  file_name : RStr
  file_size_bytes : Int
  file_type : RStr
  mime_type : RStr
deriving DecidableEq

/-- `services/document.rs` lines 14-39, `create_document`: the `INSERT`
returns a fresh row with server-assigned id, `status = 'uploading'`, both
timestamps set to now, and every column not mentioned left `NULL`. -/
def create_document (dto : CreateDocumentDto) (id now : Nat) : Document :=
  { id := id
    user_id := dto.user_id
    workspace_id := none
    title := dto.title
    content := none
    summary := none
    file_path := none
    file_name := some dto.file_name
    file_size_bytes := some dto.file_size_bytes
    file_type := some dto.file_type
    mime_type := some dto.mime_type
    status := .Uploading
    processing_error := none
    created_at := now
    updated_at := now
    deleted_at := none }

/-- `services/document.rs` lines 100-120, `update_document_status`: the
`UPDATE` sets `status`, sets `processing_error` to the given optional value
(clearing it when absent), and refreshes `updated_at`. -/
def update_document_status (d : Document) (s : DocumentStatus)
    (err : Option RStr) (now : Nat) : Document :=
  { d with status := s, processing_error := err, updated_at := now }

/-- `services/document.rs` lines 57-77, `update_content_and_summary`: the
`UPDATE` sets `content` and `summary`, sets `status = 'completed'`, and
refreshes `updated_at` (it does not touch `processing_error`). -/
def update_content_and_summary (d : Document) (content summary : RStr)
    (now : Nat) : Document :=
  { d with content := some content, summary := some summary,
           status := .Completed, updated_at := now }

/-- Sort key of `ORDER BY created_at DESC`: earlier rows have the larger
creation time. -/
def byCreatedDesc (a b : Document) : Prop := b.created_at ≤ a.created_at

instance : DecidableRel byCreatedDesc := fun a b => Nat.decLe b.created_at a.created_at

instance : IsTotal Document byCreatedDesc :=
  ⟨fun a b => Nat.le_total b.created_at a.created_at⟩

instance : IsTrans Document byCreatedDesc :=
  ⟨fun _ _ _ h1 h2 => Nat.le_trans h2 h1⟩

/-- `services/document.rs` lines 79-98, `get_documents_by_user`: the
`SELECT` keeps the rows of the table with `user_id = $1 AND deleted_at IS
NULL` and orders them by `created_at DESC` (the declarative `ORDER BY` is
realised by a sort with respect to `byCreatedDesc`). -/
def get_documents_by_user (table : List Document) (uid : RStr) : List Document :=
  (table.filter fun d => decide (d.user_id = uid ∧ d.deleted_at = none)).insertionSort
    byCreatedDesc

/-! ## Content hashing and classification (`file_utils.rs`) -/

/-- The chunked read loop of `calculate_sha256` (`file_utils.rs` lines
12-18): the bytes fed to the incremental hasher, read in 8192-byte chunks
until a zero-length read. -/
def absorbChunks : List Nat → List Nat
  | [] => []
  | b :: rest => (b :: rest).take 8192 ++ absorbChunks ((b :: rest).drop 8192)
termination_by bytes => bytes.length
decreasing_by
  simp only [List.length_drop, List.length_cons]
  omega

/-- `file_utils.rs` lines 7-21, `calculate_sha256`: on an I/O failure the
error is returned; otherwise the lowercase-hex digest of the bytes absorbed
by the chunked read loop.  The SHA-256 function itself is the external
`sha2` crate, abstracted as `sha`. -/
def calculate_sha256 (sha : List Nat → RStr) (readRes : Except RStr Unit)
    (content : List Nat) : Except RStr RStr :=
  match readRes with
  | .error e => .error e
  | .ok _ => .ok (sha (absorbChunks content))

/-- `file_utils.rs` lines 24-41, `detect_mime_type`: the result of the
external `infer::get_from_path` sniffer is `sniffRes` (I/O error, or the
sniffed MIME type, or no match); on no match, fall back to the extension
table. -/
def detect_mime_type (sniffRes : Except RStr (Option RStr)) (ext : Option RStr) :
    Except RStr RStr :=
  match sniffRes with
  | .error e => .error e
  | .ok (some kind) => .ok kind
  | .ok none =>
    .ok (match ext with
      | some e =>
        if e = "txt".data then "text/plain".data
        else if e = "md".data then "text/markdown".data
        else if e = "pdf".data then "application/pdf".data
        else if e = "docx".data then
          "application/vnd.openxmlformats-officedocument.wordprocessingml.document".data
        else "application/octet-stream".data
      | none => "application/octet-stream".data)

/-- `file_utils.rs` lines 44-49, `get_file_extension`: uppercased extension
or the placeholder `"FILE"`.  (`str::to_uppercase` is modelled,
per-character, for ASCII extensions; the multi-character expansions of full
Unicode case mapping live in the external standard library.) -/
def get_file_extension (ext : Option RStr) : RStr :=
  match ext with
  | some e => e.map Char.toUpper
  | none => "FILE".data

/-! ## The ingestion coordinator (`lib.rs` lines 47-160, `upload_file`)

External outcomes (filesystem, path API, database driver, Tauri paths) are
the fields of `UploadEnv`; the function returns the Rust result together
with the ordered list of side effects it attempted. -/

/-- `PathBuf::join` of one component. -/
def pathJoin (a b : RStr) : RStr := a ++ "/".data ++ b

/-- `lib.rs` lines 85-87: destination filename `<hash prefix>_<original
name>`.  `&file_hash[..8]` byte-slices the hex digest; hex digests are
64 one-byte characters, so this is the first-8-characters prefix. -/
def dest_filename_of (file_hash file_name : RStr) : RStr :=
  file_hash.take 8 ++ "_".data ++ file_name

/-- Side effects attempted by `upload_file`, in program order. -/
inductive Effect where
  | createDir (path : RStr)
  | copyFile (src dest : RStr)
  | storeCreate (dto : CreateDocumentDto)
  | storeUpdatePath (id : Nat) (path : RStr)
  | spawnExtraction (id : Nat) (path : RStr)
deriving DecidableEq

/-- `models.rs`: `UploadFileRequest`. -/
structure UploadFileRequest where
  user_id : RStr
  source_path : RStr
deriving DecidableEq

/-- `models.rs`: `UploadFileResponse`. -/
structure UploadFileResponse where
  document : Document
  file_hash : RStr
deriving DecidableEq

/-- Per-call outcomes of everything `upload_file` consumes from outside the
repository: the `uuid` parser, the filesystem, the `infer` sniffer, the
path API, the Tauri app-data directory, and the database driver.  The
parsed `Uuid` is identified with the request's `user_id` string. -/
structure UploadEnv where
  uuidParse : Except RStr Unit
  sourceExists : Bool
  metadata : Except RStr Int
  sniff : Except RStr (Option RStr)
  extension : Option RStr
  fileName : Option RStr
  content : List Nat
  readRes : Except RStr Unit
  appDataDir : Except RStr RStr
  createDirRes : Except RStr Unit
  copyRes : Except RStr Unit
  createRes : Except RStr Unit
  assignedId : Nat
  now : Nat
  updatePathRes : Except RStr Unit

/-- `lib.rs` lines 47-160, `upload_file`: the synchronous ingestion path.
Every early `return Err` yields the effects attempted so far; a trailing
`spawnExtraction` effect stands for the `tokio::spawn` hand-off to the
background pipeline (taken exactly when the detected MIME type is
`application/pdf` or the extension label is `PDF`). -/
def upload_file (sha : List Nat → RStr) (env : UploadEnv)
    (request : UploadFileRequest) : Except RStr UploadFileResponse × List Effect :=
  match env.uuidParse with
  | .error e => (.error e, [])
  | .ok _ =>
  match env.sourceExists with
  | false => (.error "Source file does not exist".data, [])
  | true =>
  match env.metadata with
  | .error e => (.error e, [])
  | .ok file_size =>
  let file_name := env.fileName.getD "unknown".data
  match detect_mime_type env.sniff env.extension with
  | .error e => (.error e, [])
  | .ok mime_type =>
  let file_type := get_file_extension env.extension
  match calculate_sha256 sha env.readRes env.content with
  | .error e => (.error e, [])
  | .ok file_hash =>
  match env.appDataDir with
  | .error e => (.error e, [])
  | .ok app_data_dir =>
  let documents_dir := pathJoin app_data_dir "documents".data
  match env.createDirRes with
  | .error e => (.error e, [.createDir documents_dir])
  | .ok _ =>
  let dest_filename := dest_filename_of file_hash file_name
  let dest_path := pathJoin documents_dir dest_filename
  match env.copyRes with
  | .error e => (.error e, [.createDir documents_dir,
                            .copyFile request.source_path dest_path])
  | .ok _ =>
  let dto : CreateDocumentDto :=
    { user_id := request.user_id
      title := file_name
      file_name := file_name
      file_size_bytes := file_size
      file_type := file_type
      mime_type := mime_type }
  match env.createRes with
  | .error e => (.error e, [.createDir documents_dir,
                            .copyFile request.source_path dest_path,
                            .storeCreate dto])
  | .ok _ =>
  let document := create_document dto env.assignedId env.now
  match env.updatePathRes with
  | .error e => (.error e, [.createDir documents_dir,
                            .copyFile request.source_path dest_path,
                            .storeCreate dto,
                            .storeUpdatePath document.id dest_path])
  | .ok _ =>
  let document := { document with file_path := some dest_path }
  let baseEffects := [Effect.createDir documents_dir,
                      Effect.copyFile request.source_path dest_path,
                      Effect.storeCreate dto,
                      Effect.storeUpdatePath document.id dest_path]
  if mime_type = "application/pdf".data ∨ file_type = "PDF".data then
    (.ok { document := document, file_hash := file_hash },
     baseEffects ++ [Effect.spawnExtraction document.id dest_path])
  else
    (.ok { document := document, file_hash := file_hash }, baseEffects)

/-! ## The background extraction pipeline (`lib.rs` lines 118-153)

The spawned task's interactions with the world: two `try_lock` attempts on
the shared service (`lock1` guards the advisory `Processing` update,
`lockTerm` the single post-extraction lock acquisition), the
`Document::load` outcome, and one database outcome per store call the task
makes — `procRes` for the discarded-result `Processing` update, `saveRes`
for `update_content_and_summary` (the one call whose error the task
inspects), and `failRes` for whichever of the two discarded-result
`Failed` updates the run reaches (at most one executes per run).  A store
call whose database outcome is an error leaves the record unchanged; the
`let _ =` in the source merely discards that error.  A `none` summary (the
byte-slice panic in `generate_basic_summary`) kills the task before any
further store write. -/
structure PipelineEnv where
  lock1 : Bool
  lockTerm : Bool
  load : Except RStr PdfDoc
  procRes : Except RStr Unit
  saveRes : Except RStr Unit
  failRes : Except RStr Unit

/-- The advisory step (`lib.rs` lines 120-122): when the `try_lock`
succeeds, the `Processing` update is issued with its result discarded — on
a database error the write does not happen. -/
def advisoryStep (env : PipelineEnv) (now : Nat) (d : Document) : Document :=
  if env.lock1 then
    match env.procRes with
    | .ok _ => update_document_status d .Processing none now
    | .error _ => d
  else d

/-- One run of the spawned extraction task over a document record `d`,
returning the record as the store leaves it when the task ends.  Every
discarded-result `update_document_status` call takes effect only when its
database outcome (`procRes`, `failRes`) is a success. -/
def runPipeline (env : PipelineEnv) (now : Nat) (d : Document) : Document :=
  let d1 := advisoryStep env now d
  match extract_text_from_pdf env.load with
  | .error e =>
    if env.lockTerm then
      match env.failRes with
      | .ok _ =>
        update_document_status d1 .Failed (some ("PDF extraction failed: ".data ++ e)) now
      | .error _ => d1
    else d1
  | .ok text =>
    match generate_basic_summary text 500 with
    | none => d1
    | some summary =>
      if env.lockTerm then
        match env.saveRes with
        | .ok _ => update_content_and_summary d1 text summary now
        | .error e =>
          match env.failRes with
          | .ok _ =>
            update_document_status d1 .Failed
              (some ("Failed to save content: ".data ++ e)) now
          | .error _ => d1
      else d1

/-! ## Lemmas about the byte-level string model -/

theorem utf8SizeC_pos (c : Char) : 1 ≤ utf8SizeC c := by
  unfold utf8SizeC
  repeat' split
  all_goals omega

theorem byteLen_cons (c : Char) (l : RStr) :
    byteLen (c :: l) = utf8SizeC c + byteLen l := by
  simp [byteLen]

theorem byteLen_append (a b : RStr) :
    byteLen (a ++ b) = byteLen a + byteLen b := by
  simp [byteLen]

/-- A successful byte slice returns a prefix of exactly the requested
byte length. -/
theorem byteSlicePrefix_byteLen :
    ∀ (l : RStr) (n : Nat) (p : RStr), byteSlicePrefix l n = some p → byteLen p = n := by
  intro l
  induction l with
  | nil =>
    intro n p h
    cases n with
    | zero =>
      simp only [byteSlicePrefix, Option.some.injEq] at h
      subst h
      rfl
    | succ m => exact absurd h (by simp [byteSlicePrefix])
  | cons c rest ih =>
    intro n p h
    cases n with
    | zero =>
      simp only [byteSlicePrefix, Option.some.injEq] at h
      subst h
      rfl
    | succ m =>
      rw [byteSlicePrefix] at h
      split at h
      · obtain ⟨p1, hp1, rfl⟩ := Option.map_eq_some'.mp h
        have := ih _ _ hp1
        rw [byteLen_cons, this]
        omega
      · exact absurd h (by simp)

theorem takeFitBytes_zero (l : RStr) : takeFitBytes l 0 = [] := by
  cases l with
  | nil => rfl
  | cons c rest =>
    unfold takeFitBytes
    rw [if_neg]
    have := utf8SizeC_pos c
    omega

/-- Where the Rust byte slice succeeds, it agrees with the spec-side
longest-fitting-prefix truncation. -/
theorem takeFitBytes_of_slice :
    ∀ (l : RStr) (n : Nat) (p : RStr), byteSlicePrefix l n = some p → takeFitBytes l n = p := by
  intro l
  induction l with
  | nil =>
    intro n p h
    cases n with
    | zero =>
      simp only [byteSlicePrefix, Option.some.injEq] at h
      subst h
      rfl
    | succ m => exact absurd h (by simp [byteSlicePrefix])
  | cons c rest ih =>
    intro n p h
    cases n with
    | zero =>
      simp only [byteSlicePrefix, Option.some.injEq] at h
      subst h
      exact takeFitBytes_zero _
    | succ m =>
      rw [byteSlicePrefix] at h
      split at h
      · obtain ⟨p1, hp1, rfl⟩ := Option.map_eq_some'.mp h
        unfold takeFitBytes
        rw [if_pos (by assumption), ih _ _ hp1]
      · exact absurd h (by simp)

/-- `rfind(' ')` returns the byte offset of a space inside the string, so
the offset is strictly below the byte length. -/
theorem rfindSpace_lt :
    ∀ (l : RStr) (i : Nat), rfindSpace l = some i → i + 1 ≤ byteLen l := by
  intro l
  induction l with
  | nil => intro i h; exact absurd h (by simp [rfindSpace])
  | cons c rest ih =>
    intro i h
    rw [rfindSpace] at h
    rw [byteLen_cons]
    have hpos := utf8SizeC_pos c
    split at h
    · rename_i j hr
      injection h with h2
      have hj := ih j hr
      omega
    · split at h
      · injection h with h2
        omega
      · exact absurd h (by simp)

theorem head?_dropWhile_false (p : Char → Bool) (l : List Char) (c : Char)
    (h : (l.dropWhile p).head? = some c) : p c = false := by
  have hm := List.head?_dropWhile_not p l
  rw [h] at hm
  exact hm

theorem dropWhile_eq_self_of_head (p : Char → Bool) (l : List Char)
    (h : ∀ c, l.head? = some c → p c = false) : l.dropWhile p = l := by
  cases l with
  | nil => rfl
  | cons a t =>
    rw [List.dropWhile_cons, h a rfl]
    simp

theorem dropWhile_idem (p : Char → Bool) (l : List Char) :
    (l.dropWhile p).dropWhile p = l.dropWhile p :=
  dropWhile_eq_self_of_head p _ (fun c hc => head?_dropWhile_false p l c hc)

theorem isPrefix_head_eq {q l : List Char} (h : q <+: l) (hq : q ≠ []) :
    q.head? = l.head? := by
  obtain ⟨r, rfl⟩ := h
  cases q with
  | nil => exact absurd rfl hq
  | cons a t => rfl

/-- Rust `trim` is idempotent. -/
theorem rustTrim_idem (l : RStr) : rustTrim (rustTrim l) = rustTrim l := by
  have hpre : rustTrim l <+: l.dropWhile isRustWhitespace := by
    rw [rustTrim]
    conv_rhs => rw [← List.reverse_reverse (l.dropWhile isRustWhitespace)]
    exact List.reverse_prefix.mpr (List.dropWhile_suffix _)
  have hstep : (rustTrim l).dropWhile isRustWhitespace = rustTrim l := by
    by_cases hnil : rustTrim l = []
    · rw [hnil]; rfl
    · refine dropWhile_eq_self_of_head _ _ (fun c hc => ?_)
      rw [isPrefix_head_eq hpre hnil] at hc
      exact head?_dropWhile_false _ l c hc
  show (((rustTrim l).dropWhile isRustWhitespace).reverse.dropWhile
      isRustWhitespace).reverse = rustTrim l
  rw [hstep]
  have hrev : (rustTrim l).reverse
      = (l.dropWhile isRustWhitespace).reverse.dropWhile isRustWhitespace := by
    rw [rustTrim, List.reverse_reverse]
  rw [hrev, dropWhile_idem]
  rw [rustTrim]

/-! ## Properties of the summary derivation (claims C3, C4, C5) -/

theorem byteLen_ellipsis : byteLen ellipsis = 3 := by decide

theorem generate_preview_len (t : RStr) (N : Nat) (r : RStr)
    (h : generate_preview t N = some r) : byteLen r ≤ N + 3 := by
  unfold generate_preview at h
  dsimp only at h
  by_cases hb : byteLen (rustTrim t) ≤ N
  · rw [if_pos hb] at h
    injection h with h2
    subst h2
    omega
  · rw [if_neg hb] at h
    cases hs : byteSlicePrefix (rustTrim t) N with
    | none => rw [hs] at h; dsimp only at h; exact absurd h (by simp)
    | some preview =>
      rw [hs] at h; dsimp only at h
      have hlenp : byteLen preview = N := byteSlicePrefix_byteLen _ _ _ hs
      cases hr : rfindSpace preview with
      | some i =>
        rw [hr] at h; dsimp only at h
        have hi : i + 1 ≤ N := hlenp ▸ rfindSpace_lt _ _ hr
        cases hq : byteSlicePrefix preview i with
        | none => rw [hq] at h; dsimp only at h; exact absurd h (by simp)
        | some kept =>
          rw [hq] at h; dsimp only at h
          injection h with h2
          subst h2
          have hk : byteLen kept = i := byteSlicePrefix_byteLen _ _ _ hq
          rw [byteLen_append, hk, byteLen_ellipsis]
          omega
      | none =>
        rw [hr] at h; dsimp only at h
        injection h with h2
        subst h2
        rw [byteLen_append, hlenp, byteLen_ellipsis]

/-- Claim C4: whenever `generate_basic_summary` produces a summary, its
byte length is at most the bound plus the length of the ellipsis marker
`"..."`. -/
theorem summary_length_bound (t : RStr) (N : Nat) (r : RStr)
    (h : generate_basic_summary t N = some r) :
    byteLen r ≤ N + byteLen "...".data := by
  have h3 : byteLen "...".data = 3 := by decide
  rw [h3]
  unfold generate_basic_summary at h
  dsimp only at h
  cases hf : findParaBreak (rustTrim t) with
  | some i =>
    rw [hf] at h; dsimp only at h
    cases hs : byteSlicePrefix (rustTrim t) i with
    | none => rw [hs] at h; dsimp only at h; exact absurd h (by simp)
    | some first_para =>
      rw [hs] at h; dsimp only at h
      by_cases hfp : byteLen first_para ≤ N
      · rw [if_pos hfp] at h
        injection h with h2
        subst h2
        omega
      · rw [if_neg hfp] at h
        exact generate_preview_len _ _ _ h
  | none =>
    rw [hf] at h; dsimp only at h
    exact generate_preview_len _ _ _ h

/-- Witness for `summary_length_bound` at a concrete input. -/
theorem summary_length_bound_witness :
    generate_basic_summary "hello world".data 5 = some "hello...".data ∧
      byteLen "hello...".data ≤ 5 + byteLen "...".data :=
  ⟨by decide, summary_length_bound "hello world".data 5 "hello...".data (by decide)⟩

/-- Claim C3 (the code side of the bug): the embedded
`generate_basic_summary` evaluates to `none` — the marker for the Rust
byte-slice panic `&trimmed[..max_chars]` — on a two-character input of
multi-byte characters with bound 1, because byte 1 is not a character
boundary. -/
theorem summary_panics_on_multibyte_boundary :
    generate_basic_summary "éé".data 1 = none := by decide

theorem generate_preview_spec (t : RStr) (N : Nat) (r : RStr)
    (ht : rustTrim t = t) (h : generate_preview t N = some r) :
    specFallbackSummary t N = r := by
  unfold generate_preview at h
  dsimp only at h
  rw [ht] at h
  unfold specFallbackSummary
  by_cases hb : byteLen t ≤ N
  · rw [if_pos hb] at h
    rw [if_pos hb]
    injection h with h2
  · rw [if_neg hb] at h
    rw [if_neg hb]
    cases hs : byteSlicePrefix t N with
    | none => rw [hs] at h; dsimp only at h; exact absurd h (by simp)
    | some preview =>
      rw [hs] at h; dsimp only at h
      have hcut : takeFitBytes t N = preview := takeFitBytes_of_slice _ _ _ hs
      dsimp only
      rw [hcut]
      cases hr : rfindSpace preview with
      | some i =>
        rw [hr] at h; dsimp only at h
        cases hq : byteSlicePrefix preview i with
        | none => rw [hq] at h; dsimp only at h; exact absurd h (by simp)
        | some kept =>
          rw [hq] at h; dsimp only at h
          injection h with h2
          dsimp only
          rw [takeFitBytes_of_slice _ _ _ hq]
          exact h2
      | none =>
        rw [hr] at h; dsimp only at h
        injection h with h2

/-- Claim C5 (amended): on every run where the embedded
`generate_basic_summary` does not hit the byte-slice panic, its result is
exactly the specification's summary algorithm `specSummary`. -/
theorem summary_matches_spec (t : RStr) (N : Nat) (r : RStr)
    (h : generate_basic_summary t N = some r) : r = specSummary t N := by
  have hidem : rustTrim (rustTrim t) = rustTrim t := rustTrim_idem t
  unfold generate_basic_summary at h
  dsimp only at h
  unfold specSummary
  dsimp only
  cases hf : findParaBreak (rustTrim t) with
  | some i =>
    rw [hf] at h; dsimp only at h
    dsimp only
    cases hs : byteSlicePrefix (rustTrim t) i with
    | none => rw [hs] at h; dsimp only at h; exact absurd h (by simp)
    | some first_para =>
      rw [hs] at h; dsimp only at h
      rw [takeFitBytes_of_slice _ _ _ hs]
      by_cases hfp : byteLen first_para ≤ N
      · rw [if_pos hfp] at h
        rw [if_pos hfp]
        injection h with h2
        exact h2.symm
      · rw [if_neg hfp] at h
        rw [if_neg hfp]
        exact (generate_preview_spec _ _ _ hidem h).symm
  | none =>
    rw [hf] at h; dsimp only at h
    dsimp only
    exact (generate_preview_spec _ _ _ hidem h).symm

/-- Witness for `summary_matches_spec` at a concrete input. -/
theorem summary_matches_spec_witness :
    generate_basic_summary "one two three".data 9 = some "one two...".data ∧
      "one two...".data = specSummary "one two three".data 9 :=
  ⟨by decide, summary_matches_spec "one two three".data 9 "one two...".data (by decide)⟩

/-- Counterexample to claim C5 as stated: on an input whose truncation
boundary splits a multi-byte character the embedded code panics (`none`)
instead of returning the specification algorithm's result. -/
theorem summary_not_always_spec :
    generate_basic_summary "üü".data 1 ≠ some (specSummary "üü".data 1) := by decide

theorem append_ne_nil_left {a : RStr} (b : RStr) (h : a ≠ []) : a ++ b ≠ [] := by
  intro hc
  rw [List.append_eq_nil] at hc
  exact h hc.1

/-! ## Properties of PDF extraction (claim C6) -/

theorem extractPagesLoop_spec (doc : PdfDoc) :
    ∀ (ps : List Nat) (acc : RStr),
      extractPagesLoop doc ps acc
        = acc ++ List.flatten ((ps.filterMap fun p => (doc.extractPage p).toOption).map
            (fun t => t ++ ['\n'])) := by
  intro ps
  induction ps with
  | nil => intro acc; simp [extractPagesLoop]
  | cons p rest ih =>
    intro acc
    unfold extractPagesLoop
    cases hp : doc.extractPage p with
    | ok page_text =>
      dsimp only
      rw [ih]
      simp [hp, Except.toOption, List.append_assoc]
    | error e =>
      dsimp only
      rw [ih]
      simp [hp, Except.toOption]

/-- Claim C6 (amended): for every loadable PDF, `extract_text_from_pdf`
succeeds and returns the concatenation, in page order, of the text of every
page whose individual extraction succeeded, each followed by one newline
(so the result is newline-terminated, not newline-separated); pages whose
extraction fails contribute nothing. -/
theorem extract_text_ok (doc : PdfDoc) :
    extract_text_from_pdf (.ok doc)
      = .ok (List.flatten ((doc.pages.filterMap fun p => (doc.extractPage p).toOption).map
          (fun t => t ++ ['\n']))) := by
  unfold extract_text_from_pdf
  dsimp only
  rw [extractPagesLoop_spec]
  simp

/-- A one-page document whose single page extracts to `"a"`. -/
def onePageDoc : PdfDoc := { pages := [1], extractPage := fun _ => .ok ['a'] }

/-- Counterexample to claim C6 as stated: the per-page texts are not
newline-separated (`intercalate`) — the code pushes a newline after every
successful page, so a one-page document yields a trailing newline. -/
theorem extract_text_not_separator :
    extract_text_from_pdf (.ok onePageDoc)
      ≠ .ok (List.intercalate ['\n']
          (onePageDoc.pages.filterMap fun p => (onePageDoc.extractPage p).toOption)) := by
  decide

/-- The head of a trimmed string is never whitespace. -/
theorem rustTrim_head_not_ws (l : RStr) (c : Char)
    (hc : (rustTrim l).head? = some c) : isRustWhitespace c = false := by
  have hpre : rustTrim l <+: l.dropWhile isRustWhitespace := by
    rw [rustTrim]
    conv_rhs => rw [← List.reverse_reverse (l.dropWhile isRustWhitespace)]
    exact List.reverse_prefix.mpr (List.dropWhile_suffix _)
  have hnil : rustTrim l ≠ [] := by
    intro hemp
    rw [hemp] at hc
    exact Option.noConfusion hc
  rw [isPrefix_head_eq hpre hnil] at hc
  exact head?_dropWhile_false _ l c hc

/-- A paragraph break at byte offset 0 means the string starts with a
newline. -/
theorem findParaBreak_zero (l : RStr) (h : findParaBreak l = some 0) :
    l.head? = some '\n' := by
  cases l with
  | nil => exact absurd h (by simp [findParaBreak])
  | cons c rest =>
    rw [findParaBreak] at h
    split at h
    · rename_i hc
      rw [hc.1]
      rfl
    · obtain ⟨j, hj, hj0⟩ := Option.map_eq_some'.mp h
      have := utf8SizeC_pos c
      exact absurd hj0 (by omega)

/-- A produced preview of a non-whitespace text is non-empty. -/
theorem generate_preview_ne_nil (t : RStr) (N : Nat) (r : RStr)
    (h : generate_preview t N = some r) (ht : rustTrim t ≠ []) : r ≠ [] := by
  unfold generate_preview at h
  dsimp only at h
  by_cases hb : byteLen (rustTrim t) ≤ N
  · rw [if_pos hb] at h
    injection h with h2
    subst h2
    exact ht
  · rw [if_neg hb] at h
    cases hs : byteSlicePrefix (rustTrim t) N with
    | none => rw [hs] at h; dsimp only at h; exact absurd h (by simp)
    | some preview =>
      rw [hs] at h; dsimp only at h
      cases hr : rfindSpace preview with
      | some i =>
        rw [hr] at h; dsimp only at h
        cases hq : byteSlicePrefix preview i with
        | none => rw [hq] at h; dsimp only at h; exact absurd h (by simp)
        | some kept =>
          rw [hq] at h; dsimp only at h
          injection h with h2
          subst h2
          intro hc
          rw [List.append_eq_nil] at hc
          exact absurd hc.2 (by decide)
      | none =>
        rw [hr] at h; dsimp only at h
        injection h with h2
        subst h2
        intro hc
        rw [List.append_eq_nil] at hc
        exact absurd hc.2 (by decide)

/-- A produced summary of a non-whitespace text is non-empty: the first
paragraph cannot be empty (the trimmed text cannot start with a newline),
the verbatim branch returns the non-empty trimmed text, and the truncation
branches end with the ellipsis marker. -/
theorem generate_basic_summary_ne_nil (t : RStr) (N : Nat) (r : RStr)
    (h : generate_basic_summary t N = some r) (ht : rustTrim t ≠ []) : r ≠ [] := by
  unfold generate_basic_summary at h
  dsimp only at h
  cases hf : findParaBreak (rustTrim t) with
  | some i =>
    rw [hf] at h; dsimp only at h
    cases hs : byteSlicePrefix (rustTrim t) i with
    | none => rw [hs] at h; dsimp only at h; exact absurd h (by simp)
    | some first_para =>
      rw [hs] at h; dsimp only at h
      by_cases hfp : byteLen first_para ≤ N
      · rw [if_pos hfp] at h
        injection h with h2
        subst h2
        intro hemp
        have hbl : byteLen first_para = i := byteSlicePrefix_byteLen _ _ _ hs
        rw [hemp] at hbl
        have hi0 : i = 0 := by simpa [byteLen] using hbl.symm
        subst hi0
        have hhead := findParaBreak_zero _ hf
        have := rustTrim_head_not_ws t '\n' hhead
        exact absurd this (by decide)
      · rw [if_neg hfp] at h
        refine generate_preview_ne_nil _ _ _ h ?_
        rw [rustTrim_idem]
        exact ht
  | none =>
    rw [hf] at h; dsimp only at h
    refine generate_preview_ne_nil _ _ _ h ?_
    rw [rustTrim_idem]
    exact ht

/-! ## Properties of the background pipeline (claims C1, C2) -/

/-- The advisory step never leaves an error on a record that had none:
either the `Processing` update applies (clearing `processing_error`) or the
record is untouched. -/
theorem advisoryStep_error (env : PipelineEnv) (now : Nat) (d : Document)
    (he : d.processing_error = none) :
    (advisoryStep env now d).processing_error = none := by
  unfold advisoryStep
  split
  · cases env.procRes <;> simp [update_document_status, he]
  · exact he

/-- A freshly created PDF document record, as `upload_file` leaves it for
the spawned task (`status = Uploading`, no content, no summary, no error). -/
def freshDoc : Document :=
  create_document
    { user_id := "user-1".data
      title := "doc.pdf".data
      file_name := "doc.pdf".data
      file_size_bytes := 3
      file_type := "PDF".data
      mime_type := "application/pdf".data } 1 10

/-- Claim C1 (amended): a pipeline run on a record with no prior error
reaches exactly one terminal outcome — `Completed` with non-empty content
and summary, or `Failed` with a non-empty error message — and never both,
provided the single post-extraction lock acquisition succeeds, the store
applies the discarded-result `Failed` write when it is attempted, the
summary derivation does not panic, and a successfully extracted text is not
pure whitespace.  When the lock is contended or the discarded `Failed`
write fails at the store, the run can end with the document left
non-terminal. -/
theorem pipeline_terminal_outcome (env : PipelineEnv) (d : Document) (now : Nat)
    (he : d.processing_error = none)
    (hlock : env.lockTerm = true)
    (hfail : env.failRes = .ok ())
    (hnopanic : ∀ text, extract_text_from_pdf env.load = .ok text →
      generate_basic_summary text 500 ≠ none)
    (htext : ∀ text, extract_text_from_pdf env.load = .ok text →
      rustTrim text ≠ []) :
    (((runPipeline env now d).status = .Completed
        ∧ (∃ c, (runPipeline env now d).content = some c ∧ c ≠ [])
        ∧ (∃ sm, (runPipeline env now d).summary = some sm ∧ sm ≠ [])
        ∧ (runPipeline env now d).processing_error = none)
      ∨ ((runPipeline env now d).status = .Failed
        ∧ ∃ msg, (runPipeline env now d).processing_error = some msg ∧ msg ≠ []))
    ∧ ¬((runPipeline env now d).status = .Completed
        ∧ (runPipeline env now d).status = .Failed) := by
  have hnb : ∀ x : DocumentStatus, ¬(x = .Completed ∧ x = .Failed) := by
    intro x hcon
    rw [hcon.1] at hcon
    exact DocumentStatus.noConfusion hcon.2
  refine ⟨?_, hnb _⟩
  unfold runPipeline
  try dsimp only
  cases hx : extract_text_from_pdf env.load with
  | error e =>
    rw [hlock]
    try dsimp only
    rw [hfail]
    try dsimp only
    right
    exact ⟨rfl, "PDF extraction failed: ".data ++ e, rfl,
      append_ne_nil_left e (by decide)⟩
  | ok text =>
    try dsimp only
    cases hsum : generate_basic_summary text 500 with
    | none => exact absurd hsum (hnopanic text hx)
    | some summary =>
      try dsimp only
      rw [hlock]
      try dsimp only
      cases hsave : env.saveRes with
      | ok u =>
        left
        refine ⟨rfl, ⟨text, rfl, ?_⟩, ⟨summary, rfl, ?_⟩, ?_⟩
        · intro hemp
          refine htext text hx ?_
          rw [hemp]
          rfl
        · exact generate_basic_summary_ne_nil text 500 summary hsum (htext text hx)
        · simp only [update_content_and_summary]
          exact advisoryStep_error env now d he
      | error e =>
        rw [hfail]
        try dsimp only
        right
        exact ⟨rfl, "Failed to save content: ".data ++ e, rfl,
          append_ne_nil_left e (by decide)⟩

/-- An environment in which both lock acquisitions fail: the spawned task
performs no store write at all. -/
def stuckEnv : PipelineEnv :=
  { lock1 := false, lockTerm := false
    load := .ok { pages := [1], extractPage := fun _ => .ok "hi".data }
    procRes := .ok (), saveRes := .ok (), failRes := .ok () }

/-- Counterexample to claim C1 as stated: with the service lock contended
at the post-extraction point the run ends with the document still in a
non-terminal status — it reaches neither `Completed` nor `Failed`, ever
(the task performs no further work). -/
theorem pipeline_can_stall :
    ¬((runPipeline stuckEnv 11 freshDoc).status = .Completed
      ∨ (runPipeline stuckEnv 11 freshDoc).status = .Failed) := by decide

/-- An environment in which every interaction succeeds. -/
def okEnv : PipelineEnv :=
  { lock1 := true, lockTerm := true
    load := .ok { pages := [1], extractPage := fun _ => .ok "hi".data }
    procRes := .ok (), saveRes := .ok (), failRes := .ok () }

/-- Witness for `pipeline_terminal_outcome` at a concrete environment. -/
theorem pipeline_terminal_outcome_witness :
    (((runPipeline okEnv 11 freshDoc).status = .Completed
        ∧ (∃ c, (runPipeline okEnv 11 freshDoc).content = some c ∧ c ≠ [])
        ∧ (∃ sm, (runPipeline okEnv 11 freshDoc).summary = some sm ∧ sm ≠ [])
        ∧ (runPipeline okEnv 11 freshDoc).processing_error = none)
      ∨ ((runPipeline okEnv 11 freshDoc).status = .Failed
        ∧ ∃ msg, (runPipeline okEnv 11 freshDoc).processing_error = some msg ∧ msg ≠ []))
    ∧ ¬((runPipeline okEnv 11 freshDoc).status = .Completed
        ∧ (runPipeline okEnv 11 freshDoc).status = .Failed) :=
  pipeline_terminal_outcome okEnv freshDoc 11 rfl rfl rfl
    (by
      intro text hx
      injection hx with h2
      subst h2
      decide)
    (by
      intro text hx
      injection hx with h2
      subst h2
      decide)

/-- Claim C7 (amended): when the owner identifier parses and the source
path does not exist, `upload_file` fails with the distinct source-not-found
error and performs no side effect at all — in particular the store's
`create` is never invoked. -/
theorem upload_missing_source (sha : List Nat → RStr) (env : UploadEnv)
    (req : UploadFileRequest)
    (hu : env.uuidParse = .ok ())
    (hex : env.sourceExists = false) :
    upload_file sha env req = (.error "Source file does not exist".data, []) := by
  unfold upload_file
  rw [hu]
  try dsimp only
  rw [hex]

/-- An environment whose source path is missing (every other outcome
benign). -/
def missEnv : UploadEnv :=
  { uuidParse := .ok (), sourceExists := false, metadata := .ok 0
    sniff := .ok none, extension := none, fileName := none, content := []
    readRes := .ok (), appDataDir := .ok [], createDirRes := .ok ()
    copyRes := .ok (), createRes := .ok (), assignedId := 0, now := 0
    updatePathRes := .ok () }

/-- Witness for `upload_missing_source` at a concrete environment. -/
theorem upload_missing_source_witness :
    upload_file (fun _ => []) missEnv
        { user_id := "u".data, source_path := "p".data }
      = (.error "Source file does not exist".data, []) :=
  upload_missing_source (fun _ => []) missEnv
    { user_id := "u".data, source_path := "p".data } rfl rfl

/-- `missEnv` with an owner identifier the `uuid` crate rejects. -/
def badUuidEnv : UploadEnv := { missEnv with uuidParse := .error "invalid UUID".data }

/-- Counterexample to claim C7 as stated: a request whose source path does
not exist but whose owner identifier is malformed fails with the
identifier-parse error — not with the source-not-found error — because
`upload_file` parses the identifier before checking the path. -/
theorem upload_missing_source_uuid_error :
    badUuidEnv.sourceExists = false ∧
      upload_file (fun _ => []) badUuidEnv
          { user_id := "u".data, source_path := "p".data }
        = (.error "invalid UUID".data, []) ∧
      ("invalid UUID".data : RStr) ≠ "Source file does not exist".data :=
  ⟨rfl, rfl, by decide⟩

/-- On a successful sniff the MIME detection always succeeds. -/
theorem detect_mime_type_ok (s : Option RStr) (ext : Option RStr) :
    ∃ m, detect_mime_type (.ok s) ext = .ok m := by
  cases s <;> exact ⟨_, rfl⟩

/-- Claim C8: (1) every successful ingestion stores the file under
`<first 8 characters of the hex SHA-256 digest>_<original file name>` in
the managed `documents` directory and reports the full digest; (2) the
destination name is exactly hash prefix, underscore, original name — so
re-ingesting identical content under the same name reproduces it; and (3)
destination names with distinct hash prefixes differ. -/
theorem upload_dest_naming :
    (∀ (sha : List Nat → RStr) (env : UploadEnv) (req : UploadFileRequest)
        (sz : Int) (s : Option RStr) (dir : RStr),
      env.uuidParse = .ok () → env.sourceExists = true →
      env.metadata = .ok sz → env.sniff = .ok s →
      env.readRes = .ok () → env.appDataDir = .ok dir →
      env.createDirRes = .ok () → env.copyRes = .ok () →
      env.createRes = .ok () → env.updatePathRes = .ok () →
      ∃ resp effs, upload_file sha env req = (.ok resp, effs) ∧
        resp.file_hash = sha (absorbChunks env.content) ∧
        resp.document.file_path
          = some (pathJoin (pathJoin dir "documents".data)
              (dest_filename_of (sha (absorbChunks env.content))
                (env.fileName.getD "unknown".data))))
    ∧ (∀ h n, dest_filename_of h n = h.take 8 ++ "_".data ++ n)
    ∧ (∀ h1 h2 n, h1.take 8 ≠ h2.take 8 →
        dest_filename_of h1 n ≠ dest_filename_of h2 n) := by
  refine ⟨?_, fun h n => rfl, ?_⟩
  · intro sha env req sz s dir hu hex hmeta hsniff hread hdir hcdir hcopy hcreate hupd
    unfold upload_file
    rw [hu]
    try dsimp only
    rw [hex]
    try dsimp only
    rw [hmeta]
    try dsimp only
    obtain ⟨m, hm⟩ := detect_mime_type_ok s env.extension
    rw [hsniff, hm]
    try dsimp only
    rw [hread]
    dsimp only [calculate_sha256]
    try dsimp only
    rw [hdir]
    try dsimp only
    rw [hcdir]
    try dsimp only
    rw [hcopy]
    try dsimp only
    rw [hcreate]
    try dsimp only
    rw [hupd]
    try dsimp only
    split
    · exact ⟨_, _, rfl, rfl, rfl⟩
    · exact ⟨_, _, rfl, rfl, rfl⟩
  · intro h1 h2 n hne hcon
    unfold dest_filename_of at hcon
    have h8 : h1.take 8 ++ "_".data = h2.take 8 ++ "_".data :=
      List.append_cancel_right hcon
    exact hne (List.append_cancel_right h8)

/-- A digest oracle shaped like a real lowercase-hex SHA-256 digest. -/
def shaW : List Nat → RStr :=
  fun _ => "0123456789abcdef0123456789abcdef0123456789abcdef0123456789abcdef".data

/-- An all-success ingestion environment for a 10-byte `note.txt`. -/
def uploadEnvW : UploadEnv :=
  { uuidParse := .ok (), sourceExists := true, metadata := .ok 10
    sniff := .ok none, extension := some "txt".data
    fileName := some "note.txt".data, content := [1, 2, 3]
    readRes := .ok (), appDataDir := .ok "/app".data, createDirRes := .ok ()
    copyRes := .ok (), createRes := .ok (), assignedId := 7, now := 42
    updatePathRes := .ok () }

/-- The ingestion request used by the concrete witnesses. -/
def uploadReqW : UploadFileRequest :=
  { user_id := "user-1".data, source_path := "/tmp/note.txt".data }

/-- Witness for `upload_dest_naming` at a concrete environment. -/
theorem upload_dest_naming_witness :
    (∃ resp effs, upload_file shaW uploadEnvW uploadReqW = (.ok resp, effs) ∧
        resp.file_hash = shaW (absorbChunks uploadEnvW.content) ∧
        resp.document.file_path
          = some (pathJoin (pathJoin "/app".data "documents".data)
              (dest_filename_of (shaW (absorbChunks uploadEnvW.content))
                (uploadEnvW.fileName.getD "unknown".data))))
      ∧ dest_filename_of "aaaaaaaax".data "n".data
          ≠ dest_filename_of "bbbbbbbbx".data "n".data :=
  ⟨upload_dest_naming.1 shaW uploadEnvW uploadReqW 10 none "/app".data
      rfl rfl rfl rfl rfl rfl rfl rfl rfl rfl,
    upload_dest_naming.2.2 "aaaaaaaax".data "bbbbbbbbx".data "n".data (by decide)⟩

/-- Claim C10: ingesting a `.txt` file whose content matches no sniffed
signature yields a document with `file_type = "TXT"`, `mime_type =
"text/plain"` and `status = Uploading`, and spawns no background
extraction task (so the status stays as created). -/
theorem txt_upload_no_pipeline (sha : List Nat → RStr) (env : UploadEnv)
    (req : UploadFileRequest) (sz : Int) (dir : RStr)
    (hu : env.uuidParse = .ok ()) (hex : env.sourceExists = true)
    (hmeta : env.metadata = .ok sz) (hsniff : env.sniff = .ok none)
    (hread : env.readRes = .ok ()) (hdir : env.appDataDir = .ok dir)
    (hcdir : env.createDirRes = .ok ()) (hcopy : env.copyRes = .ok ())
    (hcreate : env.createRes = .ok ()) (hupd : env.updatePathRes = .ok ())
    (hext : env.extension = some "txt".data) :
    ∃ resp effs, upload_file sha env req = (.ok resp, effs) ∧
      resp.document.file_type = some "TXT".data ∧
      resp.document.mime_type = some "text/plain".data ∧
      resp.document.status = .Uploading ∧
      ∀ i p, Effect.spawnExtraction i p ∉ effs := by
  unfold upload_file
  rw [hu]
  try dsimp only
  rw [hex]
  try dsimp only
  rw [hmeta]
  try dsimp only
  rw [hext]
  try dsimp only
  rw [hsniff]
  dsimp only [detect_mime_type]
  try dsimp only
  rw [hread]
  dsimp only [calculate_sha256]
  try dsimp only
  rw [hdir]
  try dsimp only
  rw [hcdir]
  try dsimp only
  rw [hcopy]
  try dsimp only
  rw [hcreate]
  try dsimp only
  rw [hupd]
  try dsimp only
  refine ⟨_, _, rfl, ?_, ?_, rfl, ?_⟩
  · dsimp [create_document, get_file_extension]
  · dsimp [create_document]
  · intro i p hmem
    simp [get_file_extension, create_document] at hmem

/-- Witness for `txt_upload_no_pipeline` at a concrete environment. -/
theorem txt_upload_no_pipeline_witness :
    ∃ resp effs, upload_file shaW uploadEnvW uploadReqW = (.ok resp, effs) ∧
      resp.document.file_type = some "TXT".data ∧
      resp.document.mime_type = some "text/plain".data ∧
      resp.document.status = .Uploading ∧
      ∀ i p, Effect.spawnExtraction i p ∉ effs :=
  txt_upload_no_pipeline shaW uploadEnvW uploadReqW 10 "/app".data
    rfl rfl rfl rfl rfl rfl rfl rfl rfl rfl rfl

/-! ## Properties of the listing query (claim C9) -/

/-- Claim C9: `get_documents_by_user` returns exactly the owner's
non-soft-deleted documents (as a permutation of the filtered table, with a
membership characterisation), ordered by `created_at` descending. -/
theorem listByOwner_spec (table : List Document) (uid : RStr) :
    (get_documents_by_user table uid).Perm
        (table.filter fun d => decide (d.user_id = uid ∧ d.deleted_at = none))
      ∧ List.Sorted byCreatedDesc (get_documents_by_user table uid)
      ∧ ∀ d, d ∈ get_documents_by_user table uid ↔
          (d ∈ table ∧ d.user_id = uid ∧ d.deleted_at = none) := by
  refine ⟨List.perm_insertionSort _ _, List.sorted_insertionSort _ _, ?_⟩
  intro d
  unfold get_documents_by_user
  rw [(List.perm_insertionSort byCreatedDesc _).mem_iff, List.mem_filter]
  simp

end AIKS